import Mathlib

/-!
Verification development for the showBPP video-analysis tool
(src/src/main.rs). The Rust code is shallowly embedded:

* `f64` values are modelled as rationals (`ℚ`); every numeric literal the
  program manipulates is a finite decimal, represented exactly.
* Rust strings are modelled as Lean `String`s; the ASCII-only pieces of
  upper/lower casing that the program relies on are modelled by explicit
  character maps.
* `std::collections::HashMap<String,String>` is modelled as an association
  list (`List (String × String)`); the program only reads single keys.
* The filesystem is modelled as the list of existing paths; `fs::rename`
  succeeds exactly when the source exists, and the target-existence check
  of `rename_with_suffix` happens first, as in the source.
* The ffprobe subprocess is modelled as an oracle
  `FsPath → Option FfprobeOutput`; `none` stands for any probe failure
  (spawn failure, non-zero exit, or unparseable output).
-/

namespace ShowBPP

/-! ## ASCII case mapping

Models the basic-latin part of `str::to_uppercase` / `str::to_lowercase`,
which is all the program relies on (codec names, extensions, suffixes are
ASCII). -/

/-- Uppercase a single ASCII letter, as Rust does for basic latin. -/
def upAscii (c : Char) : Char :=
  if 97 ≤ c.toNat ∧ c.toNat ≤ 122 then Char.ofNat (c.toNat - 32) else c

/-- Lowercase a single ASCII letter. -/
def lowAscii (c : Char) : Char :=
  if 65 ≤ c.toNat ∧ c.toNat ≤ 90 then Char.ofNat (c.toNat + 32) else c

/-- Models `str::to_uppercase` on the ASCII strings the program handles. -/
def strUpper (s : String) : String := ⟨s.data.map upAscii⟩

/-- Models `str::to_lowercase` on the ASCII strings the program handles. -/
def strLower (s : String) : String := ⟨s.data.map lowAscii⟩

/-- Models `str::ends_with`. -/
def strEndsWith (s pat : String) : Bool := pat.data.isSuffixOf s.data

/-! ## Numeric string parsing

Models the fragment of `f64::from_str` the program feeds it: an optional
sign followed by a finite decimal literal (digits, optionally a point and
more digits).  Exponents and the special values inf/NaN are outside the
data the tool consumes (ffprobe rate and bitrate fields). The parsed value
is represented exactly as a rational. -/

/-- Value of a digit string, most significant first. -/
def digitsVal (cs : List Char) : Nat :=
  cs.foldl (fun a c => a * 10 + (c.toNat - 48)) 0

/-- Kernel-friendly power of ten. -/
def pow10 : Nat → ℚ
  | 0 => 1
  | n + 1 => 10 * pow10 n

/-- Unsigned decimal literal: `digits`, `digits.digits`, `digits.` or
`.digits` (as accepted by `f64::from_str`). -/
def parseNumCore (cs : List Char) : Option ℚ :=
  let intPart := cs.takeWhile Char.isDigit
  let rest := cs.dropWhile Char.isDigit
  match rest with
  | [] => if intPart.isEmpty then none else some (digitsVal intPart : ℚ)
  | '.' :: frac =>
    if (intPart.isEmpty && frac.isEmpty) || !frac.all Char.isDigit then none
    else some ((digitsVal intPart : ℚ) + (digitsVal frac : ℚ) / pow10 frac.length)
  | _ => none

/-- Signed decimal literal over a character list. -/
def f64FromChars : List Char → Option ℚ
  | '+' :: rest => parseNumCore rest
  | '-' :: rest => (parseNumCore rest).map (fun q => -q)
  | cs => parseNumCore cs

/-- Models `f64::from_str` on the decimal fragment. -/
def f64FromStr (s : String) : Option ℚ := f64FromChars s.data

/-! ## parse_frame_rate (main.rs lines 148-164) -/

/-- Split a character list at the first slash, as
`r_frame_rate.find('/')` followed by the two slices does. -/
def splitFirstSlash : List Char → Option (List Char × List Char)
  | [] => none
  | c :: rest =>
    if c = '/' then some ([], rest)
    else (splitFirstSlash rest).map (fun p => (c :: p.1, p.2))

/-- Embeds `parse_frame_rate`: a fraction "N/D" (split at the first slash)
yields N/D when both halves parse and D is nonzero; otherwise, a string
with no slash yields its numeric value when it parses; all else is none. -/
def parse_frame_rate (r_frame_rate : String) : Option ℚ :=
  match splitFirstSlash r_frame_rate.data with
  | some (numCs, denCs) =>
    match f64FromChars numCs, f64FromChars denCs with
    | some num, some den => if den ≠ 0 then some (num / den) else none
    | _, _ => none
  | none => f64FromChars r_frame_rate.data

/-! ## Probe data model (main.rs lines 32-46) -/

/-- One ffprobe stream record (struct `Stream`). -/
structure Stream where
  codec_type : Option String
  codec_name : Option String
  width : Option Nat
  height : Option Nat
  r_frame_rate : Option String
  bit_rate : Option String
  tags : Option (List (String × String))
deriving DecidableEq

/-- Parsed ffprobe output (struct `FfprobeOutput`). -/
structure FfprobeOutput where
  streams : List Stream
deriving DecidableEq

/-! ## Colors and the report line (main.rs lines 48-74, 191-207) -/

/-- Terminal colors (enum `Color`). -/
inductive Color where
  | Red
  | Green
  | Blue
  | Yellow
  | Magenta
  | Cyan
  | Custom (code : Nat)
deriving DecidableEq

/-- ANSI code of a color (`Color::code`). -/
def Color.code : Color → Nat
  | .Red => 31
  | .Green => 32
  | .Blue => 34
  | .Yellow => 33
  | .Magenta => 35
  | .Cyan => 36
  | .Custom c => c

/-- Models `color_text`. -/
def color_text (text : String) (color : Color) : String :=
  "\x1b[" ++ toString color.code ++ "m" ++ text ++ "\x1b[0m"

/-- Severity color chosen for a BPP value (main.rs lines 199-205). -/
def severityColor (bpp_value : ℚ) : Color :=
  if bpp_value < 1/10 then Color.Green
  else if bpp_value < 15/100 then Color.Yellow
  else Color.Red

/-- The quantities printed by the `println!` of `calculate_bpp`
(main.rs lines 191-207): bitrate (shown in Mbps), resolution, frame rate,
and the BPP value (shown as a percentage) with its severity color. -/
structure ReportLine where
  bitrate : ℚ
  width : Nat
  height : Nat
  fps : ℚ
  bppValue : ℚ
  severity : Color
deriving DecidableEq

/-! ## calculate_bpp (main.rs lines 166-214) -/

/-- The stream `calculate_bpp` operates on: the first stream whose
codec_type is "video" and which has both width and height
(main.rs lines 168-170). -/
def selectVideoStream (probe : FfprobeOutput) : Option Stream :=
  probe.streams.find? (fun s =>
    s.codec_type == some "video" && s.width.isSome && s.height.isSome)

/-- Bitrate with fallback (main.rs lines 176-187): the stream's bit_rate
field when it parses, else the "BPS" tag when present and parseable,
else 0. -/
def streamBitrate (video_stream : Stream) : ℚ :=
  match video_stream.bit_rate.bind f64FromStr with
  | some b => b
  | none =>
    match video_stream.tags.bind
        (fun tags => (List.lookup "BPS" tags).bind f64FromStr) with
    | some b => b
    | none => 0

/-- Embeds `calculate_bpp`, keeping both the printed report line (first
component; `none` when the early returns fire before the `println!`) and
the returned value (second component). The printed line is produced
before the positivity check, exactly as in the source (lines 191-207
before lines 209-211). -/
def calculateBppRun (probe : FfprobeOutput) : Option ReportLine × Option ℚ :=
  match selectVideoStream probe with
  | none => (none, none)
  | some video_stream =>
    match video_stream.width with
    | none => (none, none)
    | some w =>
      match video_stream.height with
      | none => (none, none)
      | some h =>
        match video_stream.r_frame_rate with
        | none => (none, none)
        | some rfr =>
          match parse_frame_rate rfr with
          | none => (none, none)
          | some fps =>
            let width : ℚ := (w : ℚ)
            let height : ℚ := (h : ℚ)
            let bitrate : ℚ := streamBitrate video_stream
            let bpp_value : ℚ := bitrate / (width * height * fps)
            let line : ReportLine :=
              ⟨bitrate, w, h, fps, bpp_value, severityColor bpp_value⟩
            if width ≤ 0 ∨ height ≤ 0 ∨ fps ≤ 0 ∨ bitrate ≤ 0 then
              (some line, none)
            else
              (some line, some bpp_value)

/-- The value returned by `calculate_bpp`. -/
def calculate_bpp (probe : FfprobeOutput) : Option ℚ :=
  (calculateBppRun probe).2

/-- The report line printed by `calculate_bpp`, when any. -/
def calculateBppReport (probe : FfprobeOutput) : Option ReportLine :=
  (calculateBppRun probe).1

/-- Embeds `get_codec_name` (main.rs lines 216-222): codec name of the
first stream whose codec_type is "video", regardless of width/height. -/
def get_codec_name (probe : FfprobeOutput) : Option String :=
  (probe.streams.find? (fun s => s.codec_type == some "video")).bind
    (fun s => s.codec_name)

/-! ## Paths and the path classifier (main.rs lines 22-30, 76-121) -/

/-- A filesystem path, kept as its parent directory (`Path::parent`,
already defaulted to "." as line 225 does when there is none) and its
final component (`Path::file_name`). -/
structure FsPath where
  dir : String
  fileName : String
deriving DecidableEq

/-- Index of the last '.' in a character list, if any. -/
def lastDotIdx : List Char → Option Nat
  | [] => none
  | c :: rest =>
    match lastDotIdx rest with
    | some i => some (i + 1)
    | none => if c = '.' then some 0 else none

/-- Rust's `file_stem` / `extension` split of a file name: no embedded
dot, or a file name that is a lone leading dot followed by no other dot,
gives no extension; otherwise the name splits at the final dot. -/
def fileStemExt (name : String) : String × Option String :=
  match lastDotIdx name.data with
  | none => (name, none)
  | some 0 => (name, none)
  | some i => (⟨name.data.take i⟩, some ⟨name.data.drop (i + 1)⟩)

/-- Models `Path::file_stem` (always defined for our non-empty names). -/
def file_stem (p : FsPath) : String := (fileStemExt p.fileName).1

/-- Models `Path::extension`. -/
def extension (p : FsPath) : Option String := (fileStemExt p.fileName).2

/-- The fixed video extension list (main.rs lines 23-26). -/
def VIDEO_EXTENSIONS : List String :=
  ["mp4", "mkv", "avi", "mov", "wmv", "flv", "webm", "m4v", "ts", "mts",
   "m2ts", "mpg", "mpeg", "3gp", "ogv", "rmvb", "vob"]

/-- The fixed skip-suffix list (main.rs line 30). -/
def SKIPPED_SUFFIXES : List String := ["_AV1"]

/-- Embeds `is_video_file`: the extension, lowercased, is a member of
`VIDEO_EXTENSIONS`; a path with no extension is not a video file. -/
def is_video_file (path : FsPath) : Bool :=
  match extension path with
  | some ext => VIDEO_EXTENSIONS.contains (strLower ext)
  | none => false

/-- Embeds `should_skip_file`: the file stem, uppercased, ends with one
of the skip suffixes. -/
def should_skip_file (path : FsPath) : Bool :=
  SKIPPED_SUFFIXES.any (fun suffix => strEndsWith (strUpper (file_stem path)) suffix)

/-- The per-file filter `collect_video_files` applies to every regular
file it encounters, in both its single-file branch (main.rs line 105) and
its directory-walk branch (lines 111-114). Directory walking, existence
checks and warnings are I/O and are not modelled; a run's candidate list
is this filter over the regular files reachable from the inputs. -/
def collect_video_files (files : List FsPath) : List FsPath :=
  files.filter (fun f => is_video_file f && !should_skip_file f)

/-! ## rename_with_suffix (main.rs lines 224-248) -/

/-- Failures of `rename_with_suffix`: the target already exists
(main.rs lines 240-242), or the underlying `fs::rename` fails, modelled
as the source path not existing. -/
inductive RenameError where
  | targetExists (target : FsPath)
  | renameFailed (original target : FsPath)
deriving DecidableEq

/-- The filesystem, as the list of existing file paths. -/
abbrev FileSystem := List FsPath

/-- The path `rename_with_suffix` renames to (main.rs lines 226-238):
the suffix goes between the stem and the extension, or at the end when
the extension is empty. -/
def targetPath (original : FsPath) (suffix : String) : FsPath :=
  let stem := file_stem original
  let ext := (extension original).getD ""
  let new_name :=
    if ext = "" then stem ++ suffix else stem ++ suffix ++ "." ++ ext
  ⟨original.dir, new_name⟩

/-- Embeds `rename_with_suffix` as a filesystem transformer: error when
the target exists (checked first, lines 240-242), otherwise the rename
replaces the original path by the target. -/
def rename_with_suffix (fs : FileSystem) (original : FsPath) (suffix : String) :
    Except RenameError FileSystem :=
  let new_path := targetPath original suffix
  if fs.contains new_path then
    Except.error (RenameError.targetExists new_path)
  else if fs.contains original then
    Except.ok (new_path :: fs.erase original)
  else
    Except.error (RenameError.renameFailed original new_path)

/-! ## The driver loop (main.rs lines 277-299) -/

/-- Per-file observable actions of the driver loop: the skip notice for a
failed probe (line 283), a rename (line 293), or a run of
`calculate_bpp` with its printed line and result (line 298). -/
inductive Event where
  | probeFailed (file : FsPath)
  | renamed (original target : FsPath)
  | measured (file : FsPath) (line : Option ReportLine) (bpp : Option ℚ)
deriving DecidableEq

/-- Embeds the `for file in video_files` loop of `main`: probe failure
logs and continues; an AV1 codec (uppercased, compared uppercased again
as on lines 290-292) renames with the "_AV1" suffix, propagating a rename
error with `?`; any other codec runs `calculate_bpp`. Returns the final
filesystem and the per-file events, or the propagated rename error (a
non-zero process exit). -/
def runBatch (probe : FsPath → Option FfprobeOutput) :
    FileSystem → List FsPath → Except RenameError (FileSystem × List Event)
  | fs, [] => Except.ok (fs, [])
  | fs, file :: rest =>
    match probe file with
    | none =>
      (runBatch probe fs rest).map
        (fun r => (r.1, Event.probeFailed file :: r.2))
    | some pr =>
      let codec := strUpper ((get_codec_name pr).getD "unknown")
      if strUpper codec = "AV1" then
        match rename_with_suffix fs file "_AV1" with
        | Except.error e => Except.error e
        | Except.ok fs2 =>
          (runBatch probe fs2 rest).map
            (fun r => (r.1, Event.renamed file (targetPath file "_AV1") :: r.2))
      else
        (runBatch probe fs rest).map
          (fun r => (r.1,
            Event.measured file (calculateBppRun pr).1 (calculateBppRun pr).2 :: r.2))

/-- Whether a finished batch corresponds to a successful process exit
(`main` returning `Ok(())`). -/
def batchSucceeds (r : Except RenameError (FileSystem × List Event)) : Bool :=
  match r with
  | Except.ok _ => true
  | Except.error _ => false

instance {ε α : Type} [DecidableEq ε] [DecidableEq α] : DecidableEq (Except ε α)
  | Except.ok a, Except.ok b =>
    if h : a = b then isTrue (by rw [h])
    else isFalse (by intro hh; cases hh; exact h rfl)
  | Except.ok _, Except.error _ => isFalse (by intro h; cases h)
  | Except.error _, Except.ok _ => isFalse (by intro h; cases h)
  | Except.error e, Except.error f =>
    if h : e = f then isTrue (by rw [h])
    else isFalse (by intro hh; cases hh; exact h rfl)

/-! ## Helper lemmas: ASCII casing -/

theorem toNat_ofNat_valid (n : Nat) (h1 : n < 55296) : (Char.ofNat n).toNat = n := by
  have hv : n.isValidChar := Or.inl h1
  simp [Char.ofNat, hv, Char.ofNatAux, Char.toNat]
  rfl

theorem upAscii_idem (c : Char) : upAscii (upAscii c) = upAscii c := by
  unfold upAscii
  by_cases h : 97 ≤ c.toNat ∧ c.toNat ≤ 122
  · simp only [if_pos h]
    rw [toNat_ofNat_valid (c.toNat - 32) (by omega)]
    rw [if_neg (by omega)]
  · simp only [if_neg h]

theorem mapUp_idem (l : List Char) : (l.map upAscii).map upAscii = l.map upAscii := by
  induction l with
  | nil => rfl
  | cons a t ih => simp only [List.map_cons, upAscii_idem, ih]

theorem strUpper_idem (s : String) : strUpper (strUpper s) = strUpper s := by
  simp only [strUpper, mapUp_idem]

theorem strUpper_append (a b : String) :
    strUpper ⟨a.data ++ b.data⟩ = ⟨(strUpper a).data ++ (strUpper b).data⟩ := by
  simp [strUpper]

theorem strEndsWith_append (a b : String) :
    strEndsWith (⟨a.data ++ b.data⟩ : String) b = true := by
  simp [strEndsWith, List.isSuffixOf_iff_suffix]

/-! ## Helper lemmas: numeric parsing -/

theorem parseNumCore_chars {cs : List Char} {q : ℚ} (h : parseNumCore cs = some q) :
    ∀ c ∈ cs, c.isDigit = true ∨ c = '.' := by
  intro c hc
  simp only [parseNumCore] at h
  rw [← List.takeWhile_append_dropWhile (p := Char.isDigit) (l := cs)] at hc
  rcases List.mem_append.1 hc with h1 | h2
  · exact Or.inl (List.mem_takeWhile_imp h1)
  · split at h
    · rename_i heq
      rw [heq] at h2; cases h2
    · rename_i frac heq
      rw [heq] at h2
      rcases List.mem_cons.1 h2 with rfl | htail
      · exact Or.inr rfl
      · split at h
        · cases h
        · rename_i hcond
          cases hfa : frac.all Char.isDigit with
          | true => exact Or.inl (List.all_eq_true.1 hfa c htail)
          | false => exact absurd (by simp [hfa]) hcond
    · cases h

theorem f64FromChars_chars {cs : List Char} {q : ℚ} (h : f64FromChars cs = some q) :
    ∀ c ∈ cs, c.isDigit = true ∨ c = '.' ∨ c = '+' ∨ c = '-' := by
  intro c hc
  match cs, h with
  | '+' :: rest, h =>
    rcases List.mem_cons.1 hc with rfl | hr
    · right; right; left; rfl
    · rcases parseNumCore_chars h c hr with h1 | h1
      · exact Or.inl h1
      · exact Or.inr (Or.inl h1)
  | '-' :: rest, h =>
    rcases List.mem_cons.1 hc with rfl | hr
    · right; right; right; rfl
    · rw [show f64FromChars ('-' :: rest) = (parseNumCore rest).map (fun q => -q)
          from rfl, Option.map_eq_some'] at h
      obtain ⟨a, ha, _⟩ := h
      rcases parseNumCore_chars ha c hr with h1 | h1
      · exact Or.inl h1
      · exact Or.inr (Or.inl h1)
  | [], h =>
    cases hc
  | d :: rest, h =>
    by_cases hp : d = '+'
    · subst hp
      rcases List.mem_cons.1 hc with rfl | hr
      · right; right; left; rfl
      · rcases parseNumCore_chars h c hr with h1 | h1
        · exact Or.inl h1
        · exact Or.inr (Or.inl h1)
    · by_cases hm : d = '-'
      · subst hm
        rw [show f64FromChars ('-' :: rest) = (parseNumCore rest).map (fun q => -q)
            from rfl, Option.map_eq_some'] at h
        rcases List.mem_cons.1 hc with rfl | hr
        · right; right; right; rfl
        · obtain ⟨a, ha, _⟩ := h
          rcases parseNumCore_chars ha c hr with h1 | h1
          · exact Or.inl h1
          · exact Or.inr (Or.inl h1)
      · have heq : f64FromChars (d :: rest) = parseNumCore (d :: rest) := by
          unfold f64FromChars
          split
          · rename_i heq2; rw [List.cons.injEq] at heq2; exact absurd heq2.1 hp
          · rename_i heq2; rw [List.cons.injEq] at heq2; exact absurd heq2.1 hm
          · rfl
        rw [heq] at h
        rcases parseNumCore_chars h c hc with h1 | h1
        · exact Or.inl h1
        · exact Or.inr (Or.inl h1)

theorem f64FromChars_no_slash {cs : List Char} {q : ℚ} (h : f64FromChars cs = some q) :
    '/' ∉ cs := by
  intro hm
  rcases f64FromChars_chars h _ hm with h1 | h1 | h1 | h1 <;> simp at h1

/-! ## Helper lemmas: splitting at the first slash -/

theorem splitFirstSlash_eq_none {cs : List Char} :
    splitFirstSlash cs = none ↔ '/' ∉ cs := by
  induction cs with
  | nil => simp [splitFirstSlash]
  | cons c rest ih =>
    by_cases hc : c = '/'
    · subst hc; simp [splitFirstSlash]
    · simp [splitFirstSlash, hc, Option.map_eq_none', ih, List.mem_cons,
        Ne.symm hc]

theorem splitFirstSlash_some {cs a b : List Char}
    (h : splitFirstSlash cs = some (a, b)) :
    cs = a ++ '/' :: b ∧ '/' ∉ a := by
  induction cs generalizing a b with
  | nil => cases h
  | cons c rest ih =>
    by_cases hc : c = '/'
    · subst hc
      simp only [splitFirstSlash, if_pos rfl, Option.some.injEq, Prod.mk.injEq] at h
      obtain ⟨rfl, rfl⟩ := h
      simp
    · simp only [splitFirstSlash, if_neg hc, Option.map_eq_some'] at h
      obtain ⟨⟨a0, b0⟩, hsp, heq⟩ := h
      rw [Prod.mk.injEq] at heq
      obtain ⟨rfl, rfl⟩ := heq
      obtain ⟨hcs, hna⟩ := ih hsp
      constructor
      · simp [hcs]
      · simp [List.mem_cons, Ne.symm hc, hna]

theorem splitFirstSlash_append (a b : List Char) (h : '/' ∉ a) :
    splitFirstSlash (a ++ '/' :: b) = some (a, b) := by
  induction a with
  | nil => simp [splitFirstSlash]
  | cons c rest ih =>
    simp only [List.mem_cons, not_or] at h
    simp [splitFirstSlash, Ne.symm h.1, ih h.2]

theorem string_data_append (a b : String) : (a ++ b).data = a.data ++ b.data := rfl

/-! ## Claim C2: parse_frame_rate -/

/-- C2. For every string "N/D" whose two halves parse as numbers,
`parse_frame_rate` returns N/D when D is nonzero and nothing when D is
zero; a bare numeric string "K" yields K; and every accepted input is of
one of those two forms (completeness), so any other string yields no
value. -/
theorem parse_frame_rate_cases (N D K : String) (n d k : ℚ)
    (hn : f64FromStr N = some n) (hd : f64FromStr D = some d)
    (hk : f64FromStr K = some k) :
    (d ≠ 0 → parse_frame_rate (N ++ "/" ++ D) = some (n / d)) ∧
    (d = 0 → parse_frame_rate (N ++ "/" ++ D) = none) ∧
    parse_frame_rate K = some k ∧
    (∀ (s : String) (v : ℚ), parse_frame_rate s = some v →
      (∃ (A B : String) (a b : ℚ), s = A ++ "/" ++ B ∧
        f64FromStr A = some a ∧ f64FromStr B = some b ∧ b ≠ 0 ∧ v = a / b) ∨
      ('/' ∉ s.data ∧ f64FromStr s = some v)) := by
  have hdata : (N ++ "/" ++ D).data = N.data ++ '/' :: D.data := by
    rw [string_data_append, string_data_append]
    simp
  have hsplit : splitFirstSlash (N ++ "/" ++ D).data = some (N.data, D.data) := by
    rw [hdata]
    exact splitFirstSlash_append _ _ (f64FromChars_no_slash hn)
  refine ⟨?_, ?_, ?_, ?_⟩
  · intro hdz
    simp only [parse_frame_rate, hsplit]
    rw [show f64FromChars N.data = some n from hn,
        show f64FromChars D.data = some d from hd]
    simp [hdz]
  · intro hdz
    simp only [parse_frame_rate, hsplit]
    rw [show f64FromChars N.data = some n from hn,
        show f64FromChars D.data = some d from hd]
    simp [hdz]
  · simp only [parse_frame_rate,
      splitFirstSlash_eq_none.2 (f64FromChars_no_slash hk)]
    exact hk
  · intro s v h
    unfold parse_frame_rate at h
    split at h
    · rename_i a0 b0 hsp
      left
      obtain ⟨hcs, _⟩ := splitFirstSlash_some hsp
      split at h
      · rename_i aq bq ha hb
        by_cases hbz : bq ≠ 0
        · rw [if_pos hbz] at h
          refine ⟨⟨a0⟩, ⟨b0⟩, aq, bq, ?_, ha, hb, hbz, ?_⟩
          · apply String.ext
            rw [show ((⟨a0⟩ : String) ++ "/" ++ (⟨b0⟩ : String)).data
                  = a0 ++ '/' :: b0 by
              rw [string_data_append, string_data_append]; simp]
            exact hcs
          · exact (Option.some.injEq _ _ ▸ h).symm
        · rw [if_neg hbz] at h; cases h
      · cases h
    · rename_i hsp
      exact Or.inr ⟨splitFirstSlash_eq_none.1 hsp, h⟩

/-- Witness for C2 at "25/1" and "30". -/
theorem parse_frame_rate_cases_witness :
    parse_frame_rate "25/1" = some ((25 : ℚ) / 1) ∧
    parse_frame_rate "30" = some 30 := by
  have h := parse_frame_rate_cases "25" "1" "30" 25 1 30 rfl rfl rfl
  exact ⟨h.1 (by norm_num), h.2.2.1⟩

/-! ## Helper lemmas: calculate_bpp -/

theorem select_spec {p : FfprobeOutput} {s : Stream}
    (h : selectVideoStream p = some s) :
    s.codec_type = some "video" ∧ s.width.isSome = true ∧ s.height.isSome = true := by
  have hp := List.find?_some h
  simp only [Bool.and_eq_true, beq_iff_eq] at hp
  exact ⟨hp.1.1, hp.1.2, hp.2⟩

theorem calculateBppRun_eq {p : FfprobeOutput} {s : Stream} {w h : Nat}
    {rfr : String} {fps : ℚ}
    (hsel : selectVideoStream p = some s) (hw : s.width = some w)
    (hh : s.height = some h) (hr : s.r_frame_rate = some rfr)
    (hf : parse_frame_rate rfr = some fps) :
    calculateBppRun p =
      (some ⟨streamBitrate s, w, h, fps,
            streamBitrate s / ((w : ℚ) * (h : ℚ) * fps),
            severityColor (streamBitrate s / ((w : ℚ) * (h : ℚ) * fps))⟩,
       if (w : ℚ) ≤ 0 ∨ (h : ℚ) ≤ 0 ∨ fps ≤ 0 ∨ streamBitrate s ≤ 0 then none
       else some (streamBitrate s / ((w : ℚ) * (h : ℚ) * fps))) := by
  simp only [calculateBppRun, hsel, hw, hh, hr, hf]
  split <;> rfl

theorem calculateBppRun_none_sel {p : FfprobeOutput}
    (h : selectVideoStream p = none) :
    calculateBppRun p = (none, none) := by
  simp only [calculateBppRun, h]

theorem calculateBppRun_none_rate {p : FfprobeOutput} {s : Stream} {w h : Nat}
    (hsel : selectVideoStream p = some s) (hw : s.width = some w)
    (hh : s.height = some h) (hr : s.r_frame_rate = none) :
    calculateBppRun p = (none, none) := by
  simp only [calculateBppRun, hsel, hw, hh, hr]

theorem calculateBppRun_none_fps {p : FfprobeOutput} {s : Stream} {w h : Nat}
    {rfr : String}
    (hsel : selectVideoStream p = some s) (hw : s.width = some w)
    (hh : s.height = some h) (hr : s.r_frame_rate = some rfr)
    (hf : parse_frame_rate rfr = none) :
    calculateBppRun p = (none, none) := by
  simp only [calculateBppRun, hsel, hw, hh, hr, hf]

/-! ## Claim C1: calculate_bpp returns a value exactly on positive data -/

/-- C1. `calculate_bpp` returns a value exactly when a video stream with
both width and height exists (the first such stream is used) and that
stream's width, height, parsed frame rate, and post-fallback bitrate are
all strictly positive; in every other case it returns no value, and any
returned value is strictly positive, never zero or negative. The model
is a total function, so no input can make it panic. -/
theorem calculate_bpp_some_iff (p : FfprobeOutput) :
    ((calculate_bpp p).isSome = true ↔
      ∃ s w h rfr fps, selectVideoStream p = some s ∧
        s.width = some w ∧ s.height = some h ∧
        s.r_frame_rate = some rfr ∧ parse_frame_rate rfr = some fps ∧
        0 < w ∧ 0 < h ∧ 0 < fps ∧ 0 < streamBitrate s) ∧
    (∀ v : ℚ, calculate_bpp p = some v → 0 < v) := by
  have main : (calculate_bpp p).isSome = true ↔
      ∃ s w h rfr fps, selectVideoStream p = some s ∧
        s.width = some w ∧ s.height = some h ∧
        s.r_frame_rate = some rfr ∧ parse_frame_rate rfr = some fps ∧
        0 < w ∧ 0 < h ∧ 0 < fps ∧ 0 < streamBitrate s := ?_
  · refine ⟨main, ?_⟩
    intro v hv
    obtain ⟨s, w, h, rfr, fps, hsel, hw, hh, hr, hf, hw0, hh0, hf0, hb0⟩ :=
      main.mp (by rw [hv]; rfl)
    rw [calculate_bpp, calculateBppRun_eq hsel hw hh hr hf] at hv
    simp only [] at hv
    rw [if_neg (by
      push_neg
      exact ⟨by exact_mod_cast hw0, by exact_mod_cast hh0, hf0, hb0⟩)] at hv
    obtain rfl : streamBitrate s / ((w : ℚ) * (h : ℚ) * fps) = v := by
      injection hv
    exact div_pos hb0
      (mul_pos (mul_pos (by exact_mod_cast hw0) (by exact_mod_cast hh0)) hf0)
  constructor
  · intro hsome
    cases hsel : selectVideoStream p with
    | none =>
      rw [calculate_bpp, calculateBppRun_none_sel hsel] at hsome
      simp at hsome
    | some s =>
      obtain ⟨hct, hwis, hhis⟩ := select_spec hsel
      obtain ⟨w, hw⟩ := Option.isSome_iff_exists.1 hwis
      obtain ⟨h, hh⟩ := Option.isSome_iff_exists.1 hhis
      cases hr : s.r_frame_rate with
      | none =>
        rw [calculate_bpp, calculateBppRun_none_rate hsel hw hh hr] at hsome
        simp at hsome
      | some rfr =>
        cases hf : parse_frame_rate rfr with
        | none =>
          rw [calculate_bpp, calculateBppRun_none_fps hsel hw hh hr hf] at hsome
          simp at hsome
        | some fps =>
          rw [calculate_bpp, calculateBppRun_eq hsel hw hh hr hf] at hsome
          simp only [] at hsome
          split at hsome
          · simp at hsome
          · rename_i hcond
            push_neg at hcond
            obtain ⟨hw0, hh0, hf0, hb0⟩ := hcond
            exact ⟨s, w, h, rfr, fps, rfl, hw, hh, hr, hf,
              Nat.cast_pos.mp hw0, Nat.cast_pos.mp hh0, hf0, hb0⟩
  · rintro ⟨s, w, h, rfr, fps, hsel, hw, hh, hr, hf, hw0, hh0, hf0, hb0⟩
    rw [calculate_bpp, calculateBppRun_eq hsel hw hh hr hf]
    simp only []
    rw [if_neg]
    · simp
    · push_neg
      exact ⟨by exact_mod_cast hw0, by exact_mod_cast hh0, hf0, hb0⟩

/-- Witness for C1: a fully populated 1920x1080, 25 fps, 8 Mbps stream
yields a value. -/
theorem calculate_bpp_some_iff_witness :
    (calculate_bpp ⟨[⟨some "video", some "h264", some 1920, some 1080,
        some "25/1", some "8000000", none⟩]⟩).isSome = true := by
  apply ((calculate_bpp_some_iff _).1).mpr
  refine ⟨⟨some "video", some "h264", some 1920, some 1080, some "25/1",
      some "8000000", none⟩, 1920, 1080, "25/1", 25,
    rfl, rfl, rfl, rfl, ?_, ?_, ?_, ?_, ?_⟩
  · simp [parse_frame_rate, splitFirstSlash, f64FromChars, parseNumCore, digitsVal]
  · norm_num
  · norm_num
  · norm_num
  · have hbr : streamBitrate ⟨some "video", some "h264", some 1920, some 1080,
        some "25/1", some "8000000", none⟩ = 8000000 := by
      simp [streamBitrate, f64FromStr, f64FromChars, parseNumCore, digitsVal]
    rw [hbr]
    norm_num

/-! ## Claim C3: the BPP formula -/

/-- C3. Whenever the selected video stream has strictly positive width,
height, frame rate and bitrate, the returned BPP equals
bitrate / (width * height * fps). -/
theorem calculate_bpp_formula {p : FfprobeOutput} {s : Stream} {w h : Nat}
    {rfr : String} {fps : ℚ}
    (hsel : selectVideoStream p = some s) (hw : s.width = some w)
    (hh : s.height = some h) (hr : s.r_frame_rate = some rfr)
    (hf : parse_frame_rate rfr = some fps)
    (hw0 : 0 < w) (hh0 : 0 < h) (hf0 : 0 < fps)
    (hb0 : 0 < streamBitrate s) :
    calculate_bpp p = some (streamBitrate s / ((w : ℚ) * (h : ℚ) * fps)) := by
  rw [calculate_bpp, calculateBppRun_eq hsel hw hh hr hf]
  simp only []
  rw [if_neg]
  push_neg
  exact ⟨by exact_mod_cast hw0, by exact_mod_cast hh0, hf0, hb0⟩

/-- Witness for C3: bitrate 8000000, 1920x1080 at 25 fps gives
BPP = 25/162 (approximately 0.1543). -/
theorem calculate_bpp_formula_witness :
    calculate_bpp ⟨[⟨some "video", some "h264", some 1920, some 1080,
        some "25/1", some "8000000", none⟩]⟩ = some (25 / 162) ∧
    ((25 : ℚ) / 162) = 8000000 / (1920 * 1080 * 25) := by
  have hbr : streamBitrate ⟨some "video", some "h264", some 1920, some 1080,
      some "25/1", some "8000000", none⟩ = 8000000 := by
    simp [streamBitrate, f64FromStr, f64FromChars, parseNumCore, digitsVal]
  have hfps : parse_frame_rate "25/1" = some 25 := by
    simp [parse_frame_rate, splitFirstSlash, f64FromChars, parseNumCore, digitsVal]
  have h := @calculate_bpp_formula
    ⟨[⟨some "video", some "h264", some 1920, some 1080,
        some "25/1", some "8000000", none⟩]⟩
    ⟨some "video", some "h264", some 1920, some 1080,
        some "25/1", some "8000000", none⟩
    1920 1080 "25/1" 25
    rfl rfl rfl rfl hfps (by norm_num) (by norm_num) (by norm_num)
    (by rw [hbr]; norm_num)
  rw [h, hbr]
  norm_num

/-! ## Claim C4: the bitrate fallback -/

theorem streamBitrate_of_field {s : Stream} {q : ℚ}
    (h : s.bit_rate.bind f64FromStr = some q) : streamBitrate s = q := by
  simp only [streamBitrate, h]

theorem streamBitrate_of_tag {s : Stream} {q : ℚ}
    (h1 : s.bit_rate.bind f64FromStr = none)
    (h2 : s.tags.bind (fun tags => (List.lookup "BPS" tags).bind f64FromStr)
      = some q) : streamBitrate s = q := by
  simp only [streamBitrate, h1, h2]

theorem streamBitrate_of_neither {s : Stream}
    (h1 : s.bit_rate.bind f64FromStr = none)
    (h2 : s.tags.bind (fun tags => (List.lookup "BPS" tags).bind f64FromStr)
      = none) : streamBitrate s = 0 := by
  simp only [streamBitrate, h1, h2]

theorem calculate_bpp_none_of_bitrate_nonpos {p : FfprobeOutput} {s : Stream}
    (hsel : selectVideoStream p = some s) (hb : streamBitrate s ≤ 0) :
    calculate_bpp p = none := by
  obtain ⟨hct, hwis, hhis⟩ := select_spec hsel
  obtain ⟨w, hw⟩ := Option.isSome_iff_exists.1 hwis
  obtain ⟨h, hh⟩ := Option.isSome_iff_exists.1 hhis
  cases hr : s.r_frame_rate with
  | none => rw [calculate_bpp, calculateBppRun_none_rate hsel hw hh hr]
  | some rfr =>
    cases hf : parse_frame_rate rfr with
    | none => rw [calculate_bpp, calculateBppRun_none_fps hsel hw hh hr hf]
    | some fps =>
      rw [calculate_bpp, calculateBppRun_eq hsel hw hh hr hf]
      simp only []
      rw [if_pos]
      right; right; right
      exact hb

/-- C4. The bitrate used by `calculate_bpp` is the stream's bit_rate
field when it parses; otherwise the "BPS" tag value when present and
parseable; otherwise 0, in which case `calculate_bpp` returns no value
whenever that stream is the selected one. -/
theorem bitrate_fallback (s : Stream) (p : FfprobeOutput) (q : ℚ) :
    (s.bit_rate.bind f64FromStr = some q → streamBitrate s = q) ∧
    (s.bit_rate.bind f64FromStr = none →
      s.tags.bind (fun tags => (List.lookup "BPS" tags).bind f64FromStr)
        = some q →
      streamBitrate s = q) ∧
    (s.bit_rate.bind f64FromStr = none →
      s.tags.bind (fun tags => (List.lookup "BPS" tags).bind f64FromStr)
        = none →
      streamBitrate s = 0) ∧
    (selectVideoStream p = some s → streamBitrate s = 0 →
      calculate_bpp p = none) :=
  ⟨streamBitrate_of_field,
   streamBitrate_of_tag,
   streamBitrate_of_neither,
   fun hsel hz => calculate_bpp_none_of_bitrate_nonpos hsel (le_of_eq hz)⟩

/-- Witness for C4: a stream whose bit_rate field parses, one that falls
back to its "BPS" tag, and one with neither, which makes calculate_bpp
return no value. -/
theorem bitrate_fallback_witness :
    streamBitrate ⟨some "video", none, some 4, some 4, some "25", some "500", none⟩
      = 500 ∧
    streamBitrate ⟨some "video", none, some 4, some 4, some "25", none,
      some [("BPS", "700")]⟩ = 700 ∧
    streamBitrate ⟨some "video", none, some 4, some 4, some "25", none, none⟩
      = 0 ∧
    calculate_bpp ⟨[⟨some "video", none, some 4, some 4, some "25", none, none⟩]⟩
      = none := by
  refine ⟨(bitrate_fallback _ ⟨[]⟩ 500).1 ?_,
          (bitrate_fallback _ ⟨[]⟩ 700).2.1 rfl ?_,
          (bitrate_fallback _ ⟨[]⟩ 0).2.2.1 rfl rfl,
          (bitrate_fallback ⟨some "video", none, some 4, some 4, some "25",
            none, none⟩ _ 0).2.2.2 rfl ((bitrate_fallback _ ⟨[]⟩ 0).2.2.1 rfl rfl)⟩
  · rfl
  · rfl

/-! ## Claim C10: the report line is printed before the positivity check -/

/-- C10. With positive width, height and frame rate but a bitrate that
defaults to 0 (bit_rate absent or unparseable and no usable "BPS" tag),
`calculate_bpp` still emits its report line, which shows a BPP value of
0 (printed as 0.00% in green), even though it returns no value. -/
theorem report_line_before_check {p : FfprobeOutput} {s : Stream} {w h : Nat}
    {rfr : String} {fps : ℚ}
    (hsel : selectVideoStream p = some s) (hw : s.width = some w)
    (hh : s.height = some h) (hr : s.r_frame_rate = some rfr)
    (hf : parse_frame_rate rfr = some fps)
    (hw0 : 0 < w) (hh0 : 0 < h) (hf0 : 0 < fps)
    (hbr : s.bit_rate.bind f64FromStr = none)
    (htag : s.tags.bind (fun tags => (List.lookup "BPS" tags).bind f64FromStr)
      = none) :
    calculateBppRun p = (some ⟨0, w, h, fps, 0, Color.Green⟩, none) := by
  have hz : streamBitrate s = 0 := streamBitrate_of_neither hbr htag
  rw [calculateBppRun_eq hsel hw hh hr hf, hz]
  rw [zero_div]
  rw [if_pos (by right; right; right; exact le_refl 0)]
  have hsev : severityColor 0 = Color.Green := by
    norm_num [severityColor]
  rw [hsev]

/-- Witness for C10: a 4x4, 25 fps stream with no bitrate information
produces the 0-percent report line and no value. -/
theorem report_line_before_check_witness :
    calculateBppRun ⟨[⟨some "video", none, some 4, some 4, some "25", none, none⟩]⟩
      = (some ⟨0, 4, 4, 25, 0, Color.Green⟩, none) := by
  have hfps : parse_frame_rate "25" = some 25 := by
    simp [parse_frame_rate, splitFirstSlash, f64FromChars, parseNumCore, digitsVal]
  exact report_line_before_check rfl rfl rfl rfl hfps
    (by norm_num) (by norm_num) (by norm_num) rfl rfl

/-! ## Helper lemmas: one step of the driver loop -/

theorem runBatch_probe_fail {probe : FsPath → Option FfprobeOutput}
    {fs : FileSystem} {file : FsPath} {rest : List FsPath}
    (h : probe file = none) :
    runBatch probe fs (file :: rest) =
      (runBatch probe fs rest).map
        (fun r => (r.1, Event.probeFailed file :: r.2)) := by
  simp only [runBatch, h]

theorem runBatch_av1 {probe : FsPath → Option FfprobeOutput}
    {fs : FileSystem} {file : FsPath} {rest : List FsPath} {pr : FfprobeOutput}
    (h : probe file = some pr)
    (hc : strUpper (strUpper ((get_codec_name pr).getD "unknown")) = "AV1") :
    runBatch probe fs (file :: rest) =
      match rename_with_suffix fs file "_AV1" with
      | Except.error e => Except.error e
      | Except.ok fs2 =>
        (runBatch probe fs2 rest).map
          (fun r => (r.1, Event.renamed file (targetPath file "_AV1") :: r.2)) := by
  simp only [runBatch, h]
  rw [if_pos hc]

theorem runBatch_other {probe : FsPath → Option FfprobeOutput}
    {fs : FileSystem} {file : FsPath} {rest : List FsPath} {pr : FfprobeOutput}
    (h : probe file = some pr)
    (hc : strUpper (strUpper ((get_codec_name pr).getD "unknown")) ≠ "AV1") :
    runBatch probe fs (file :: rest) =
      (runBatch probe fs rest).map
        (fun r => (r.1,
          Event.measured file (calculateBppRun pr).1 (calculateBppRun pr).2
            :: r.2)) := by
  simp only [runBatch, h]
  rw [if_neg hc]

/-! ## Claim C5: case-insensitive codec classification -/

/-- C5. The driver's branch depends only on the first video stream's
codec name compared to "AV1" ignoring ASCII case (absent codec names
default to "unknown", which uppercases to "UNKNOWN"): a match renames
with the "_AV1" suffix and does not run `calculate_bpp`; any other codec
runs `calculate_bpp` for its report and performs no rename. -/
theorem codec_classification (probe : FsPath → Option FfprobeOutput)
    (fs : FileSystem) (file : FsPath) (rest : List FsPath)
    (pr : FfprobeOutput) (hp : probe file = some pr) :
    (strUpper ((get_codec_name pr).getD "unknown") = "AV1" →
      runBatch probe fs (file :: rest) =
        match rename_with_suffix fs file "_AV1" with
        | Except.error e => Except.error e
        | Except.ok fs2 =>
          (runBatch probe fs2 rest).map
            (fun r => (r.1, Event.renamed file (targetPath file "_AV1") :: r.2))) ∧
    (strUpper ((get_codec_name pr).getD "unknown") ≠ "AV1" →
      runBatch probe fs (file :: rest) =
        (runBatch probe fs rest).map
          (fun r => (r.1,
            Event.measured file (calculateBppRun pr).1 (calculateBppRun pr).2
              :: r.2))) := by
  constructor
  · intro hc
    exact runBatch_av1 hp (by rw [hc]; rfl)
  · intro hc
    exact runBatch_other hp (by rw [strUpper_idem]; exact hc)

/-- Witness for C5: a codec reported as "Av1" (mixed case) is renamed
without being measured, while a probe result with no video stream
(codec defaulted to "unknown") is measured and not renamed. -/
theorem codec_classification_witness :
    runBatch (fun _ => some ⟨[⟨some "video", some "Av1", some 4, some 4,
        some "25", some "1000", none⟩]⟩)
      [⟨".", "movie.mp4"⟩] [⟨".", "movie.mp4"⟩] =
      Except.ok ([⟨".", "movie_AV1.mp4"⟩],
        [Event.renamed ⟨".", "movie.mp4"⟩ ⟨".", "movie_AV1.mp4"⟩]) ∧
    runBatch (fun _ => some ⟨[]⟩) [⟨".", "other.mp4"⟩] [⟨".", "other.mp4"⟩] =
      Except.ok ([⟨".", "other.mp4"⟩],
        [Event.measured ⟨".", "other.mp4"⟩ none none]) := by
  constructor
  · have h := (codec_classification
      (fun _ => some ⟨[⟨some "video", some "Av1", some 4, some 4,
          some "25", some "1000", none⟩]⟩)
      [⟨".", "movie.mp4"⟩] ⟨".", "movie.mp4"⟩ []
      ⟨[⟨some "video", some "Av1", some 4, some 4, some "25", some "1000",
        none⟩]⟩ rfl).1 (by decide)
    rw [h]
    decide
  · have h := (codec_classification (fun _ => some ⟨[]⟩)
      [⟨".", "other.mp4"⟩] ⟨".", "other.mp4"⟩ [] ⟨[]⟩ rfl).2 (by decide)
    rw [h]
    decide

/-! ## Claim C8: a probe failure skips the file and the batch continues -/

/-- C8. When the probe of a file fails, the driver records the skip
notice for that file and processes the remaining files exactly as it
would have without it; in particular probe failures alone never make the
process exit unsuccessfully. -/
theorem probe_failure_skips (probe : FsPath → Option FfprobeOutput)
    (fs : FileSystem) (file : FsPath) (rest : List FsPath)
    (hfail : probe file = none) :
    runBatch probe fs (file :: rest) =
      (runBatch probe fs rest).map
        (fun r => (r.1, Event.probeFailed file :: r.2)) ∧
    (batchSucceeds (runBatch probe fs rest) = true →
      batchSucceeds (runBatch probe fs (file :: rest)) = true) := by
  refine ⟨runBatch_probe_fail hfail, ?_⟩
  intro hok
  rw [runBatch_probe_fail hfail]
  cases hres : runBatch probe fs rest with
  | ok r => rfl
  | error e => rw [hres] at hok; cases hok

/-- Witness for C8: the first file's probe fails, the second succeeds;
the batch finishes successfully with a skip notice for the first file
and a processing record for the second. -/
theorem probe_failure_skips_witness :
    runBatch
      (fun q => if q = ⟨".", "bad.mp4"⟩ then none else some ⟨[]⟩)
      [] [⟨".", "bad.mp4"⟩, ⟨".", "good.mp4"⟩] =
      Except.ok ([], [Event.probeFailed ⟨".", "bad.mp4"⟩,
        Event.measured ⟨".", "good.mp4"⟩ none none]) ∧
    batchSucceeds (runBatch
      (fun q => if q = ⟨".", "bad.mp4"⟩ then none else some ⟨[]⟩)
      [] [⟨".", "bad.mp4"⟩, ⟨".", "good.mp4"⟩]) = true := by
  have h := (probe_failure_skips
    (fun q => if q = ⟨".", "bad.mp4"⟩ then none else some ⟨[]⟩)
    [] ⟨".", "bad.mp4"⟩ [⟨".", "good.mp4"⟩] (by decide)).1
  rw [h]
  constructor
  · decide
  · decide

/-! ## Claim C9: a rename failure aborts the whole run -/

/-- C9. When a file classifies as AV1 and its rename fails (for example
because the target path exists), the driver propagates the error: the
run ends with that error, no later file is processed, and the process
exit is unsuccessful — unlike probe failures, which are skipped. -/
theorem rename_error_fatal (probe : FsPath → Option FfprobeOutput)
    (fs : FileSystem) (file : FsPath) (rest : List FsPath)
    (pr : FfprobeOutput) (e : RenameError)
    (hp : probe file = some pr)
    (hcodec : strUpper ((get_codec_name pr).getD "unknown") = "AV1")
    (hrn : rename_with_suffix fs file "_AV1" = Except.error e) :
    runBatch probe fs (file :: rest) = Except.error e ∧
    batchSucceeds (runBatch probe fs (file :: rest)) = false := by
  have h := @runBatch_av1 probe fs file rest pr hp (by rw [hcodec]; rfl)
  rw [h, hrn]
  exact ⟨rfl, rfl⟩

/-- Witness for C9: the rename target already exists, so the whole run
(with another file still pending) ends in an error. -/
theorem rename_error_fatal_witness :
    runBatch (fun _ => some ⟨[⟨some "video", some "av1", some 4, some 4,
        some "25", some "1000", none⟩]⟩)
      [⟨".", "movie.mp4"⟩, ⟨".", "movie_AV1.mp4"⟩]
      [⟨".", "movie.mp4"⟩, ⟨".", "pending.mp4"⟩] =
      Except.error (RenameError.targetExists ⟨".", "movie_AV1.mp4"⟩) := by
  have h := rename_error_fatal
    (fun _ => some ⟨[⟨some "video", some "av1", some 4, some 4,
        some "25", some "1000", none⟩]⟩)
    [⟨".", "movie.mp4"⟩, ⟨".", "movie_AV1.mp4"⟩]
    ⟨".", "movie.mp4"⟩ [⟨".", "pending.mp4"⟩]
    ⟨[⟨some "video", some "av1", some 4, some 4, some "25", some "1000",
      none⟩]⟩
    (RenameError.targetExists ⟨".", "movie_AV1.mp4"⟩)
    rfl (by decide) (by decide)
  exact h.1

/-! ## Claim C6: renaming never overwrites -/

/-- C6. If a file already exists at the computed target path,
`rename_with_suffix` fails with the target-exists error and produces no
filesystem change; when the target is free (and the original exists so
the underlying rename can succeed) it performs exactly the rename to the
suffixed path. -/
theorem rename_never_overwrites (fs : FileSystem) (original : FsPath)
    (suffix : String) :
    (targetPath original suffix ∈ fs →
      rename_with_suffix fs original suffix =
        Except.error (RenameError.targetExists (targetPath original suffix))) ∧
    (targetPath original suffix ∉ fs → original ∈ fs →
      rename_with_suffix fs original suffix =
        Except.ok (targetPath original suffix :: fs.erase original)) := by
  constructor
  · intro hmem
    simp only [rename_with_suffix]
    rw [if_pos (List.elem_iff.mpr hmem)]
  · intro hnew horig
    simp only [rename_with_suffix]
    rw [if_neg (fun hc => hnew (List.elem_iff.mp hc)),
        if_pos (List.elem_iff.mpr horig)]

/-- Witness for C6: a rename into an occupied target errors, a rename
into a free target succeeds. -/
theorem rename_never_overwrites_witness :
    rename_with_suffix [⟨".", "b.mp4"⟩, ⟨".", "b_AV1.mp4"⟩] ⟨".", "b.mp4"⟩
      "_AV1" = Except.error (RenameError.targetExists ⟨".", "b_AV1.mp4"⟩) ∧
    rename_with_suffix [⟨".", "c.mp4"⟩] ⟨".", "c.mp4"⟩ "_AV1" =
      Except.ok [⟨".", "c_AV1.mp4"⟩] := by
  constructor
  · have h := (rename_never_overwrites [⟨".", "b.mp4"⟩, ⟨".", "b_AV1.mp4"⟩]
      ⟨".", "b.mp4"⟩ "_AV1").1 (by decide)
    rw [h]
    decide
  · have h := (rename_never_overwrites [⟨".", "c.mp4"⟩] ⟨".", "c.mp4"⟩
      "_AV1").2 (by decide) (by decide)
    rw [h]
    decide

/-! ## Helper lemmas: stems and extensions of renamed paths -/

theorem lastDotIdx_none_iff {cs : List Char} :
    lastDotIdx cs = none ↔ '.' ∉ cs := by
  induction cs with
  | nil => simp [lastDotIdx]
  | cons c rest ih =>
    simp only [lastDotIdx]
    cases h : lastDotIdx rest with
    | some i =>
      have hdot : '.' ∈ rest := by
        by_contra hn
        rw [ih.mpr hn] at h
        cases h
      simp [List.mem_cons, hdot]
    | none =>
      have hr : '.' ∉ rest := ih.mp h
      by_cases hc : c = '.'
      · simp [hc]
      · simp [hc, List.mem_cons, Ne.symm hc, hr]

theorem lastDotIdx_append {A B : List Char} (hB : '.' ∉ B) :
    lastDotIdx (A ++ '.' :: B) = some A.length := by
  induction A with
  | nil => simp [lastDotIdx, lastDotIdx_none_iff.mpr hB]
  | cons c rest ih =>
    simp only [List.cons_append, lastDotIdx, List.append_eq, ih, List.length_cons]

theorem lastDotIdx_drop {cs : List Char} {i : Nat}
    (h : lastDotIdx cs = some i) : '.' ∉ cs.drop (i + 1) := by
  induction cs generalizing i with
  | nil => cases h
  | cons c rest ih =>
    simp only [lastDotIdx] at h
    cases hr : lastDotIdx rest with
    | some j =>
      rw [hr] at h
      obtain rfl : j + 1 = i := by injection h
      exact ih hr
    | none =>
      rw [hr] at h
      by_cases hc : c = '.'
      · rw [if_pos hc] at h
        obtain rfl : (0 : Nat) = i := by injection h
        exact lastDotIdx_none_iff.mp hr
      · rw [if_neg hc] at h
        cases h

theorem extension_no_dot {p : FsPath} {e : String}
    (h : extension p = some e) : '.' ∉ e.data := by
  simp only [extension, fileStemExt] at h
  split at h
  · cases h
  · cases h
  · rename_i i hne0 hidx
    obtain rfl : (⟨p.fileName.data.drop (i + 1)⟩ : String) = e := by injection h
    exact lastDotIdx_drop hidx

theorem fileStemExt_append {S E : List Char} (hE : '.' ∉ E) (hS : S ≠ []) :
    fileStemExt ⟨S ++ '.' :: E⟩ = (⟨S⟩, some ⟨E⟩) := by
  obtain ⟨n, hn⟩ : ∃ n, S.length = n + 1 := by
    cases S with
    | nil => exact absurd rfl hS
    | cons a t => exact ⟨t.length, rfl⟩
  have hidx : lastDotIdx (S ++ '.' :: E) = some (n + 1) := by
    rw [lastDotIdx_append hE, hn]
  simp only [fileStemExt, hidx]
  rw [Prod.mk.injEq]
  constructor
  · apply String.ext
    show (S ++ '.' :: E).take (n + 1) = S
    rw [← hn]
    exact List.take_left S ('.' :: E)
  · apply congrArg
    apply String.ext
    show (S ++ '.' :: E).drop (n + 1 + 1) = E
    have hsplit2 : S ++ '.' :: E = (S ++ ['.']) ++ E := by simp
    rw [hsplit2]
    exact List.drop_left' (by simp [hn])

theorem file_stem_targetPath {original : FsPath} {e : String}
    (hext : extension original = some e) (hne : e ≠ "") :
    file_stem (targetPath original "_AV1") = file_stem original ++ "_AV1" ∧
    extension (targetPath original "_AV1") = some e := by
  have hE : '.' ∉ e.data := extension_no_dot hext
  have hS : (file_stem original ++ "_AV1").data ≠ [] := by
    rw [string_data_append]
    intro hcontra
    exact absurd (List.append_eq_nil.mp hcontra).2 (by decide)
  have hname : (targetPath original "_AV1").fileName =
      ⟨(file_stem original ++ "_AV1").data ++ '.' :: e.data⟩ := by
    simp only [targetPath, hext, Option.getD_some]
    rw [if_neg hne]
    apply String.ext
    show (file_stem original ++ "_AV1" ++ "." ++ e).data = _
    rw [string_data_append, string_data_append, List.append_assoc]
    rfl
  constructor
  · show (fileStemExt (targetPath original "_AV1").fileName).1 = _
    rw [hname, fileStemExt_append hE hS]
  · show (fileStemExt (targetPath original "_AV1").fileName).2 = some e
    rw [hname, fileStemExt_append hE hS]

theorem should_skip_target {original : FsPath} {e : String}
    (hext : extension original = some e) (hne : e ≠ "") :
    should_skip_file (targetPath original "_AV1") = true := by
  simp only [should_skip_file, SKIPPED_SUFFIXES, List.any_cons, List.any_nil,
    Bool.or_false]
  rw [(file_stem_targetPath hext hne).1]
  have hab : file_stem original ++ "_AV1" =
      (⟨(file_stem original).data ++ "_AV1".data⟩ : String) := rfl
  rw [hab, strUpper_append]
  have hup : strUpper "_AV1" = "_AV1" := rfl
  rw [hup]
  exact strEndsWith_append _ "_AV1"

theorem not_mem_collect {f : FsPath} (h : should_skip_file f = true)
    (files : List FsPath) : f ∉ collect_video_files files := by
  intro hmem
  simp only [collect_video_files, List.mem_filter] at hmem
  have hf := hmem.2
  rw [h] at hf
  simp at hf

/-! ## Claim C7 (corrected): marking is idempotent for video files -/

/-- Counterexample to C7 as stated: the path "a.b." (empty extension
after the final dot) renames successfully to "a.b_AV1", whose stem is
"a", so the result does not satisfy `should_skip_file`. -/
theorem marking_idempotent_counterexample :
    rename_with_suffix [⟨".", "a.b."⟩] ⟨".", "a.b."⟩ "_AV1" =
      Except.ok [⟨".", "a.b_AV1"⟩] ∧
    should_skip_file ⟨".", "a.b_AV1"⟩ = false := by
  decide

/-- C7 (amended): for every file path with a nonempty extension — in
particular every file discovery can yield, since those have a video
extension — a successful rename with the "_AV1" marker produces a path
that satisfies `should_skip_file`, so discovery excludes it on a
subsequent run and it is never renamed twice. -/
theorem marking_idempotent (original : FsPath) (e : String)
    (fs fs2 : FileSystem) (files : List FsPath)
    (hext : extension original = some e) (hne : e ≠ "")
    (hok : rename_with_suffix fs original "_AV1" = Except.ok fs2) :
    fs2 = targetPath original "_AV1" :: fs.erase original ∧
    should_skip_file (targetPath original "_AV1") = true ∧
    targetPath original "_AV1" ∉ collect_video_files files := by
  refine ⟨?_, should_skip_target hext hne,
    not_mem_collect (should_skip_target hext hne) files⟩
  simp only [rename_with_suffix] at hok
  split at hok
  · cases hok
  · split at hok
    · injection hok with hok2
      exact hok2.symm
    · cases hok

/-- Witness for C7: renaming "show.mkv" yields "show_AV1.mkv", which is
skipped and excluded from discovery. -/
theorem marking_idempotent_witness :
    rename_with_suffix [⟨".", "show.mkv"⟩] ⟨".", "show.mkv"⟩ "_AV1" =
      Except.ok [⟨".", "show_AV1.mkv"⟩] ∧
    should_skip_file ⟨".", "show_AV1.mkv"⟩ = true ∧
    (⟨".", "show_AV1.mkv"⟩ : FsPath) ∉
      collect_video_files [⟨".", "show_AV1.mkv"⟩] := by
  have hren : rename_with_suffix [⟨".", "show.mkv"⟩] ⟨".", "show.mkv"⟩ "_AV1" =
      Except.ok [⟨".", "show_AV1.mkv"⟩] := by decide
  have h := marking_idempotent ⟨".", "show.mkv"⟩ "mkv" [⟨".", "show.mkv"⟩]
    [⟨".", "show_AV1.mkv"⟩] [⟨".", "show_AV1.mkv"⟩] rfl (by decide) hren
  have htp : targetPath ⟨".", "show.mkv"⟩ "_AV1" = ⟨".", "show_AV1.mkv"⟩ := by
    decide
  exact ⟨hren, htp ▸ h.2.1, htp ▸ h.2.2⟩

end ShowBPP
